import Mathlib

/-!
Verification development for the deployment toolkit.

The diff engine, assembly model, deployment orchestrator and change
executor are not shipped in this source snapshot (only the CLI package
manifest and two construct-library files are), so those components are
modelled directly from the specification document. The two
construct-library files (`target-tracking-scaling-policy.ts` and
`external-table.ts`) are embedded from their TypeScript source.
-/

/- ### String ordering helpers

Lexicographic ordering on strings via their character data, used for the
deterministic logical-ID ordering of diff output and for normalizing key
order inside property maps. Defined structurally so that it evaluates by
kernel reduction. -/

/-- Lexicographic comparison of character lists via code points. -/
def charListLeB : List Char → List Char → Bool
  | [], _ => true
  | _ :: _, [] => false
  | a :: as, b :: bs =>
    if a.toNat < b.toNat then true
    else if b.toNat < a.toNat then false
    else charListLeB as bs

/-- Lexicographic comparison of strings, as a Bool. -/
def strLeB (a b : String) : Bool := charListLeB a.data b.data

/-- Lexicographic order on strings, as a decidable Prop. -/
def strLe (a b : String) : Prop := strLeB a b = true

instance : DecidableRel strLe := fun _ _ => instDecidableEqBool _ _

/- ### Diff engine: data model -/

/-- Modelled from the spec: section 9 requires template documents to be
represented as a normalized tree of tagged values (string, number, list,
map, intrinsic-reference) so that diff comparison is structural and
type-aware rather than string-based. The diff-engine source is not in
this snapshot. -/
inductive Value where
  | str (s : String)
  | num (n : Int)
  | arr (elems : List Value)
  | map (entries : List (String × Value))
  | intrinsicRef (target : String)

mutual

def valueDecEq : (a b : Value) → Decidable (a = b)
  | .str a, .str b =>
    if h : a = b then isTrue (by rw [h]) else isFalse (fun hh => h (by cases hh; rfl))
  | .num a, .num b =>
    if h : a = b then isTrue (by rw [h]) else isFalse (fun hh => h (by cases hh; rfl))
  | .arr a, .arr b =>
    match valueListDecEq a b with
    | isTrue h => isTrue (by rw [h])
    | isFalse h => isFalse (fun hh => h (by cases hh; rfl))
  | .map a, .map b =>
    match valueEntriesDecEq a b with
    | isTrue h => isTrue (by rw [h])
    | isFalse h => isFalse (fun hh => h (by cases hh; rfl))
  | .intrinsicRef a, .intrinsicRef b =>
    if h : a = b then isTrue (by rw [h]) else isFalse (fun hh => h (by cases hh; rfl))
  | .str _, .num _ => isFalse (by intro h; cases h)
  | .str _, .arr _ => isFalse (by intro h; cases h)
  | .str _, .map _ => isFalse (by intro h; cases h)
  | .str _, .intrinsicRef _ => isFalse (by intro h; cases h)
  | .num _, .str _ => isFalse (by intro h; cases h)
  | .num _, .arr _ => isFalse (by intro h; cases h)
  | .num _, .map _ => isFalse (by intro h; cases h)
  | .num _, .intrinsicRef _ => isFalse (by intro h; cases h)
  | .arr _, .str _ => isFalse (by intro h; cases h)
  | .arr _, .num _ => isFalse (by intro h; cases h)
  | .arr _, .map _ => isFalse (by intro h; cases h)
  | .arr _, .intrinsicRef _ => isFalse (by intro h; cases h)
  | .map _, .str _ => isFalse (by intro h; cases h)
  | .map _, .num _ => isFalse (by intro h; cases h)
  | .map _, .arr _ => isFalse (by intro h; cases h)
  | .map _, .intrinsicRef _ => isFalse (by intro h; cases h)
  | .intrinsicRef _, .str _ => isFalse (by intro h; cases h)
  | .intrinsicRef _, .num _ => isFalse (by intro h; cases h)
  | .intrinsicRef _, .arr _ => isFalse (by intro h; cases h)
  | .intrinsicRef _, .map _ => isFalse (by intro h; cases h)

def valueListDecEq : (a b : List Value) → Decidable (a = b)
  | [], [] => isTrue rfl
  | [], _ :: _ => isFalse (by intro h; cases h)
  | _ :: _, [] => isFalse (by intro h; cases h)
  | a :: as, b :: bs =>
    match valueDecEq a b, valueListDecEq as bs with
    | isTrue h1, isTrue h2 => isTrue (by rw [h1, h2])
    | isFalse h1, _ => isFalse (fun hh => h1 (by cases hh; rfl))
    | _, isFalse h2 => isFalse (fun hh => h2 (by cases hh; rfl))

def valueEntriesDecEq : (a b : List (String × Value)) → Decidable (a = b)
  | [], [] => isTrue rfl
  | [], _ :: _ => isFalse (by intro h; cases h)
  | _ :: _, [] => isFalse (by intro h; cases h)
  | (k, v) :: as, (k2, v2) :: bs =>
    match (inferInstance : DecidableEq String) k k2, valueDecEq v v2, valueEntriesDecEq as bs with
    | isTrue h0, isTrue h1, isTrue h2 => isTrue (by rw [h0, h1, h2])
    | isFalse h0, _, _ => isFalse (fun hh => h0 (by cases hh; rfl))
    | _, isFalse h1, _ => isFalse (fun hh => h1 (by cases hh; rfl))
    | _, _, isFalse h2 => isFalse (fun hh => h2 (by cases hh; rfl))

end

instance : DecidableEq Value := valueDecEq

/-- Key order used when normalizing property-map entries. -/
def entryLe (a b : String × Value) : Prop := strLeB a.1 b.1 = true

instance : DecidableRel entryLe := fun _ _ => instDecidableEqBool _ _

mutual

/-- Modelled from the spec: property comparison is structural equality
after normalization; two documents differing only in key ordering are
equal after normalization (section 4.2). Maps are normalized by sorting
entries by key, recursively. -/
def Value.normalize : Value → Value
  | .str s => .str s
  | .num n => .num n
  | .arr es => .arr (normalizeList es)
  | .map es => .map ((normalizeEntries es).insertionSort entryLe)
  | .intrinsicRef t => .intrinsicRef t

def normalizeList : List Value → List Value
  | [] => []
  | v :: vs => v.normalize :: normalizeList vs

def normalizeEntries : List (String × Value) → List (String × Value)
  | [] => []
  | (k, v) :: es => (k, v.normalize) :: normalizeEntries es

end

/-- Modelled from the spec: a template resource has a resource type and a
property map (section 3, section 4.2). -/
structure Resource where
  resourceType : String
  properties : List (String × Value)
  deriving DecidableEq

/-- Modelled from the spec: a template maps logical IDs to resources. -/
abbrev Template := List (String × Resource)

/-- Normalized form of a resource property map. -/
def normalizeProps (props : List (String × Value)) : List (String × Value) :=
  (normalizeEntries props).insertionSort entryLe

/-- Change kind of a single resource in a diff (section 3). -/
inductive ChangeKind where
  | add | modify | remove | noOp
  deriving DecidableEq

/-- Replacement classification of a resource change (section 3). -/
inductive Replacement where
  | never | conditionally | always | unknown
  deriving DecidableEq

/-- Modelled from the spec: static table from (resource-type,
property-name) to replacement policy (section 4.2). -/
abbrev ReplacementTable := List ((String × String) × Replacement)

/-- Look up the replacement policy of one property of one resource type. -/
def tableLookup (table : ReplacementTable) (resourceType propName : String) :
    Option Replacement :=
  (table.find? (fun e => e.1.1 == resourceType && e.1.2 == propName)).map (fun e => e.2)

/-- Keys of a property map. -/
def propKeys (props : List (String × Value)) : List String := props.map (fun e => e.1)

/-- First binding of a key in a property map. -/
def lookupProp (props : List (String × Value)) (k : String) : Option Value :=
  (props.find? (fun e => e.1 == k)).map (fun e => e.2)

/-- Modelled from the spec: the set of property names whose values differ
between the deployed (before) and desired (after) property maps. -/
def changedProps (before after : List (String × Value)) : List String :=
  ((propKeys before ++ propKeys after).dedup).filter
    (fun k => lookupProp before k ≠ lookupProp after k)

/-- Modelled from the spec (section 4.2): if any changed property maps to
Always the whole resource change is Always; if any maps to Conditionally
and none to Always, Conditionally; unknown resource types or properties
give Unknown; otherwise Never. -/
def classifyReplacement (table : ReplacementTable) (resourceType : String)
    (props : List String) : Replacement :=
  if props.any (fun p => tableLookup table resourceType p == some Replacement.always) then
    Replacement.always
  else if props.any (fun p => tableLookup table resourceType p == some Replacement.conditionally) then
    Replacement.conditionally
  else if props.any (fun p => tableLookup table resourceType p == none) then
    Replacement.unknown
  else Replacement.never

/-- One entry of a diff result (section 3): logical ID, change kind,
resource type, replacement classification and before/after property
maps. -/
structure ResourceChange where
  logicalId : String
  kind : ChangeKind
  resourceType : String
  replacement : Replacement
  before : List (String × Value)
  after : List (String × Value)
  deriving DecidableEq

/-- Logical IDs bound in a template. -/
def templateKeys (t : Template) : List String := t.map (fun e => e.1)

/-- First resource bound to a logical ID in a template. -/
def lookupResource (t : Template) (k : String) : Option Resource :=
  (t.find? (fun e => e.1 == k)).map (fun e => e.2)

/-- Normalized property map of the resource a template binds to a key. -/
def resourceProps? (t : Template) (k : String) : Option (List (String × Value)) :=
  (lookupResource t k).map (fun r => normalizeProps r.properties)

/-- Modelled from the spec: the diff key set is the union of the logical
IDs of both templates, ordered by logical ID (sections 4.2 and 6). -/
def diffKeys (desired deployed : Template) : List String :=
  ((templateKeys desired ++ templateKeys deployed).dedup).insertionSort strLe

/-- Modelled from the spec (section 4.2): classify one logical ID. Absent
in deployed gives Add; absent in desired gives Remove; present in both
with identical normalized property maps gives NoOp; otherwise Modify,
with the replacement classification of the changed properties. -/
def classifyKey (table : ReplacementTable) (desired deployed : Template) (k : String) :
    ResourceChange :=
  match lookupResource desired k, lookupResource deployed k with
  | some d, none =>
    { logicalId := k, kind := ChangeKind.add, resourceType := d.resourceType,
      replacement := Replacement.never, before := [], after := normalizeProps d.properties }
  | none, some p =>
    { logicalId := k, kind := ChangeKind.remove, resourceType := p.resourceType,
      replacement := Replacement.never, before := normalizeProps p.properties, after := [] }
  | some d, some p =>
    if normalizeProps d.properties = normalizeProps p.properties then
      { logicalId := k, kind := ChangeKind.noOp, resourceType := d.resourceType,
        replacement := Replacement.never, before := normalizeProps p.properties,
        after := normalizeProps d.properties }
    else
      { logicalId := k, kind := ChangeKind.modify, resourceType := d.resourceType,
        replacement := classifyReplacement table d.resourceType
          (changedProps (normalizeProps p.properties) (normalizeProps d.properties)),
        before := normalizeProps p.properties, after := normalizeProps d.properties }
  | none, none =>
    { logicalId := k, kind := ChangeKind.noOp, resourceType := "",
      replacement := Replacement.never, before := [], after := [] }

/-- Modelled from the spec (section 4.2): the diff of a desired template
against a deployed template is the classification of every logical ID in
the union of the two key sets. -/
def computeDiff (table : ReplacementTable) (desired deployed : Template) :
    List ResourceChange :=
  (diffKeys desired deployed).map (classifyKey table desired deployed)

/- ### Diff engine: concrete witness inputs -/

/-- Concrete template with one resource, used by witnesses. -/
def wTemplateA : Template := [("A", { resourceType := "T", properties := [] })]

/-- Concrete desired template used by the replacement witnesses. -/
def wDesired : Template :=
  [("A", { resourceType := "T", properties := [("p", Value.str "1")] })]

/-- Concrete deployed template used by the replacement witnesses. -/
def wDeployed : Template :=
  [("A", { resourceType := "T", properties := [("p", Value.str "2")] })]

/-- Concrete replacement table used by the replacement witnesses. -/
def wTable : ReplacementTable := [(("T", "p"), Replacement.always)]

/- ### Assembly model -/

/-- Modelled from the spec: a stack has an identity and an ordered list of
dependency stack identities (section 3). Environment, template and asset
references are not needed by the graph claims. -/
structure Stack where
  id : String
  deps : List String
  deriving DecidableEq

/-- Modelled from the spec: an assembly holds the stacks it enumerates. -/
abbrev Assembly := List Stack

/-- Identities of the stacks of an assembly. -/
def stackIds (asm : Assembly) : List String := asm.map (fun s => s.id)

/-- Modelled from the spec (section 4.1): fatal load errors. The cyclic
case reports the candidate cycle members. -/
inductive LoadError where
  | unknownDependency (stackId dep : String)
  | cyclicDependency (members : List String)
  deriving DecidableEq

/-- Every dependency identity resolves to a stack of the assembly. -/
def depsResolve (asm : Assembly) : Prop :=
  ∀ s ∈ asm, ∀ d ∈ s.deps, d ∈ stackIds asm

instance (asm : Assembly) : Decidable (depsResolve asm) :=
  decidable_of_iff (∀ s ∈ asm, ∀ d ∈ s.deps, d ∈ stackIds asm) Iff.rfl

/-- First unresolved dependency of the assembly, if any. -/
def unresolvedDep (asm : Assembly) : Option (String × String) :=
  asm.findSome? (fun s =>
    (s.deps.find? (fun d => !(stackIds asm).contains d)).map (fun d => (s.id, d)))

/-- A stack is ready once all its dependencies are placed in prior layers. -/
def readyStack (placed : List String) (s : Stack) : Bool :=
  s.deps.all (fun d => placed.contains d)

/-- Modelled from the spec (section 4.1): compute topological layers by
repeatedly taking every not-yet-placed stack whose dependencies are all
placed; when no stack is ready but some remain, the remaining stacks are
mutually blocked and loading fails with a cyclic-dependency error. The
fuel is the stack count, which bounds the number of layers. -/
def buildLayers : Nat → List Stack → List String → Except LoadError (List (List Stack))
  | 0, remaining, _ =>
    if remaining.isEmpty then .ok []
    else .error (.cyclicDependency (remaining.map (fun s => s.id)))
  | fuel + 1, remaining, placed =>
    if remaining.isEmpty then .ok []
    else
      let layer := remaining.filter (readyStack placed)
      if layer.isEmpty then .error (.cyclicDependency (remaining.map (fun s => s.id)))
      else
        match buildLayers fuel (remaining.filter (fun s => !readyStack placed s))
            (placed ++ layer.map (fun s => s.id)) with
        | .ok rest => .ok (layer :: rest)
        | .error e => .error e

/-- Modelled from the spec (section 4.1): the lazy sequence of topological
layers of an assembly. -/
def stacksInTopologicalOrder (asm : Assembly) : Except LoadError (List (List Stack)) :=
  buildLayers asm.length asm []

/-- Modelled from the spec (section 4.1): loading validates that every
dependency resolves to a stack of the assembly (else UnknownDependency)
and that the graph has no cycle (else CyclicDependency). -/
def loadAssembly (asm : Assembly) : Except LoadError (List (List Stack)) :=
  match unresolvedDep asm with
  | some e => .error (.unknownDependency e.1 e.2)
  | none => stacksInTopologicalOrder asm

/-- Direct dependency relation: stack a depends on stack b. -/
def dependsOn (asm : Assembly) (a b : String) : Prop :=
  ∃ s ∈ asm, s.id = a ∧ b ∈ s.deps

/-- The dependency graph contains a cycle. -/
def hasCycle (asm : Assembly) : Prop :=
  ∃ a, Relation.TransGen (dependsOn asm) a a

/-- Every stack of a layer list sits strictly after all its dependencies. -/
def layersSound (layers : List (List Stack)) : Prop :=
  ∀ i, (hi : i < layers.length) → ∀ s ∈ layers.get ⟨i, hi⟩, ∀ d ∈ s.deps,
    ∃ j, ∃ (hj : j < layers.length), j < i ∧ ∃ t ∈ layers.get ⟨j, hj⟩, t.id = d

/-- Stacks of a cycle through a: reachable from a and reaching a. -/
def cycleMembers (asm : Assembly) (a m : String) : Prop :=
  Relation.TransGen (dependsOn asm) a m ∧ Relation.TransGen (dependsOn asm) m a

/-- Concrete two-stack DAG assembly used by the load witness. -/
def wAsmDag : Assembly := [{ id := "A", deps := [] }, { id := "B", deps := ["A"] }]

/-- Concrete cyclic assembly used by the load witness. -/
def wAsmCyc : Assembly := [{ id := "A", deps := ["B"] }, { id := "B", deps := ["A"] }]

/-- Concrete assembly with an unresolved dependency, used by the load witness. -/
def wAsmBad : Assembly := [{ id := "A", deps := ["X"] }]

/- ### Deployment orchestrator -/

/-- Modelled from the spec: per-stack deployment status (section 3), plus
the Skipped status the orchestrator assigns to dependents of failed
stacks (section 4.5). -/
inductive StackStatus where
  | pending | inProgress | succeeded | failed | rolledBack | skipped | cancelled
  deriving DecidableEq

/-- Assignment of a status to every stack identity. -/
def DeployState := String → StackStatus

/-- All stacks start pending. -/
def initState : DeployState := fun _ => StackStatus.pending

/-- Update the status of one stack identity. -/
def setStatus (st : DeployState) (sid : String) (v : StackStatus) : DeployState :=
  fun x => if x = sid then v else st x

/-- Statuses that the orchestrator never changes again. -/
def StackStatus.isTerminal : StackStatus → Bool
  | .pending => false
  | .inProgress => false
  | _ => true

/-- Statuses of a stack whose deployment was started at some point. -/
def StackStatus.started : StackStatus → Bool
  | .inProgress => true
  | .succeeded => true
  | .failed => true
  | .rolledBack => true
  | _ => false

/-- Modelled from the spec (sections 4.4 and 4.5): one observable
scheduling or completion event of the deployment orchestrator. A stack
may start only when it is pending and every dependency has succeeded; a
running deployment finishes succeeded or failed; a failed stack may roll
back; a pending stack one of whose dependencies failed, rolled back or
was itself skipped is marked skipped and is never attempted. -/
inductive DeployStep (asm : Assembly) : DeployState → DeployState → Prop where
  | start (st : DeployState) (s : Stack) (hs : s ∈ asm)
      (hpend : st s.id = StackStatus.pending)
      (hdeps : ∀ d ∈ s.deps, st d = StackStatus.succeeded) :
      DeployStep asm st (setStatus st s.id StackStatus.inProgress)
  | finishOk (st : DeployState) (s : Stack) (hs : s ∈ asm)
      (hrun : st s.id = StackStatus.inProgress) :
      DeployStep asm st (setStatus st s.id StackStatus.succeeded)
  | finishFail (st : DeployState) (s : Stack) (hs : s ∈ asm)
      (hrun : st s.id = StackStatus.inProgress) :
      DeployStep asm st (setStatus st s.id StackStatus.failed)
  | rollback (st : DeployState) (s : Stack) (hs : s ∈ asm)
      (hfail : st s.id = StackStatus.failed) :
      DeployStep asm st (setStatus st s.id StackStatus.rolledBack)
  | skip (st : DeployState) (s : Stack) (hs : s ∈ asm)
      (hpend : st s.id = StackStatus.pending) (d : String) (hd : d ∈ s.deps)
      (hbad : st d = StackStatus.failed ∨ st d = StackStatus.rolledBack ∨
        st d = StackStatus.skipped) :
      DeployStep asm st (setStatus st s.id StackStatus.skipped)

/-- States reachable by the orchestrator from the all-pending start. -/
def ReachableDeploy (asm : Assembly) (st : DeployState) : Prop :=
  Relation.ReflTransGen (DeployStep asm) initState st

/-- Concrete dependent stack used by the orchestrator witness. -/
def wStackB : Stack := { id := "B", deps := ["A"] }

/-- State after starting stack A. -/
def wStA1 : DeployState := setStatus initState "A" StackStatus.inProgress

/-- State after A succeeded. -/
def wStA2 : DeployState := setStatus wStA1 "A" StackStatus.succeeded

/-- State after B started following A's success. -/
def wStB1 : DeployState := setStatus wStA2 "B" StackStatus.inProgress

/-- State after A failed. -/
def wStAF : DeployState := setStatus wStA1 "A" StackStatus.failed

/- ### Change executor: strategy selection -/

/-- Deployment strategies available to the change executor (section 4.4). -/
inductive DeployStrategy where
  | hotswap | changeSet
  deriving DecidableEq

/-- Modelled from the spec (section 4.4): a single resource change is
hotswap-eligible only when it needs no work at all (NoOp) or is a Modify
of a kind known to be hotswappable in place, not classified as an Always
replacement, and touching nothing security relevant. The in-place and
security classifications are inputs of the executor. -/
def hotswapEligible (inPlace securityRelevant : ResourceChange → Bool)
    (c : ResourceChange) : Bool :=
  c.kind == ChangeKind.noOp ||
    (c.kind == ChangeKind.modify && !(c.replacement == Replacement.always) &&
      inPlace c && !securityRelevant c)

/-- Modelled from the spec (section 4.4): the Planning state picks the
hotswap strategy only when the user opted in and every resource change of
the diff is hotswap-eligible; otherwise it falls back to the full
change-set strategy for the whole diff. -/
def chooseStrategy (optIn : Bool) (inPlace securityRelevant : ResourceChange → Bool)
    (cs : List ResourceChange) : DeployStrategy :=
  if optIn && cs.all (hotswapEligible inPlace securityRelevant) then
    DeployStrategy.hotswap
  else DeployStrategy.changeSet

/- ### Application autoscaling: target tracking scaling policy

Embedded from
packages/aws-cdk-lib/aws-applicationautoscaling/lib/target-tracking-scaling-policy.ts. -/

/-- The PredefinedMetric enum of the source. -/
inductive PredefinedMetric where
  | APPSTREAM_AVERAGE_CAPACITY_UTILIZATION
  | CASSANDRA_READ_CAPACITY_UTILIZATION
  | CASSANDRA_WRITE_CAPACITY_UTILIZATION
  | COMPREHEND_INFERENCE_UTILIZATION
  | NEPTURE_READER_AVERAGE_CPU_UTILIZATION
  | DYNAMODB_READ_CAPACITY_UTILIZATION
  | DYNAMODB_WRITE_CAPACITY_UTILIZATION
  | DYANMODB_WRITE_CAPACITY_UTILIZATION
  | ALB_REQUEST_COUNT_PER_TARGET
  | RDS_READER_AVERAGE_CPU_UTILIZATION
  | RDS_READER_AVERAGE_DATABASE_CONNECTIONS
  | EC2_SPOT_FLEET_REQUEST_AVERAGE_CPU_UTILIZATION
  | EC2_SPOT_FLEET_REQUEST_AVERAGE_NETWORK_IN
  | EC2_SPOT_FLEET_REQUEST_AVERAGE_NETWORK_OUT
  | SAGEMAKER_VARIANT_INVOCATIONS_PER_INSTANCE
  | SAGEMAKER_VARIANT_PROVISIONED_CONCURRENCY_UTILIZATION
  | SAGEMAKER_INFERENCE_COMPONENT_INVOCATIONS_PER_COPY
  | ECS_SERVICE_AVERAGE_CPU_UTILIZATION
  | ECS_SERVICE_AVERAGE_MEMORY_UTILIZATION
  | LAMBDA_PROVISIONED_CONCURRENCY_UTILIZATION
  | KAFKA_BROKER_STORAGE_UTILIZATION
  | ELASTICACHE_PRIMARY_ENGINE_CPU_UTILIZATION
  | ELASTICACHE_REPLICA_ENGINE_CPU_UTILIZATION
  | ELASTICACHE_DATABASE_MEMORY_USAGE_COUNTED_FOR_EVICT_PERCENTAGE
  | ELASTICACHE_DATABASE_CAPACITY_USAGE_COUNTED_FOR_EVICT_PERCENTAGE
  | SAGEMAKER_INFERENCE_COMPONENT_CONCURRENT_REQUESTS_PER_COPY_HIGH_RESOLUTION
  | SAGEMAKER_VARIANT_CONCURRENT_REQUESTS_PER_MODEL_HIGH_RESOLUTION
  | WORKSPACES_AVERAGE_USER_SESSIONS_CAPACITY_UTILIZATION
  deriving DecidableEq

/-- The runtime string value of each enum member. The
DYNAMODB_WRITE_CAPACITY_UTILIZATION member carries a dummy-suffixed
placeholder ("Suffix dummy is necessary due to jsii bug" in the source)
while the deprecated DYANMODB_WRITE_CAPACITY_UTILIZATION member carries
the real value. -/
def PredefinedMetric.value : PredefinedMetric → String
  | .APPSTREAM_AVERAGE_CAPACITY_UTILIZATION => "AppStreamAverageCapacityUtilization"
  | .CASSANDRA_READ_CAPACITY_UTILIZATION => "CassandraReadCapacityUtilization"
  | .CASSANDRA_WRITE_CAPACITY_UTILIZATION => "CassandraWriteCapacityUtilization"
  | .COMPREHEND_INFERENCE_UTILIZATION => "ComprehendInferenceUtilization"
  | .NEPTURE_READER_AVERAGE_CPU_UTILIZATION => "NeptuneReaderAverageCPUUtilization"
  | .DYNAMODB_READ_CAPACITY_UTILIZATION => "DynamoDBReadCapacityUtilization"
  | .DYNAMODB_WRITE_CAPACITY_UTILIZATION => "DynamoDBWriteCapacityUtilization-dummy"
  | .DYANMODB_WRITE_CAPACITY_UTILIZATION => "DynamoDBWriteCapacityUtilization"
  | .ALB_REQUEST_COUNT_PER_TARGET => "ALBRequestCountPerTarget"
  | .RDS_READER_AVERAGE_CPU_UTILIZATION => "RDSReaderAverageCPUUtilization"
  | .RDS_READER_AVERAGE_DATABASE_CONNECTIONS => "RDSReaderAverageDatabaseConnections"
  | .EC2_SPOT_FLEET_REQUEST_AVERAGE_CPU_UTILIZATION => "EC2SpotFleetRequestAverageCPUUtilization"
  | .EC2_SPOT_FLEET_REQUEST_AVERAGE_NETWORK_IN => "EC2SpotFleetRequestAverageNetworkIn"
  | .EC2_SPOT_FLEET_REQUEST_AVERAGE_NETWORK_OUT => "EC2SpotFleetRequestAverageNetworkOut"
  | .SAGEMAKER_VARIANT_INVOCATIONS_PER_INSTANCE => "SageMakerVariantInvocationsPerInstance"
  | .SAGEMAKER_VARIANT_PROVISIONED_CONCURRENCY_UTILIZATION => "SageMakerVariantProvisionedConcurrencyUtilization"
  | .SAGEMAKER_INFERENCE_COMPONENT_INVOCATIONS_PER_COPY => "SageMakerInferenceComponentInvocationsPerCopy"
  | .ECS_SERVICE_AVERAGE_CPU_UTILIZATION => "ECSServiceAverageCPUUtilization"
  | .ECS_SERVICE_AVERAGE_MEMORY_UTILIZATION => "ECSServiceAverageMemoryUtilization"
  | .LAMBDA_PROVISIONED_CONCURRENCY_UTILIZATION => "LambdaProvisionedConcurrencyUtilization"
  | .KAFKA_BROKER_STORAGE_UTILIZATION => "KafkaBrokerStorageUtilization"
  | .ELASTICACHE_PRIMARY_ENGINE_CPU_UTILIZATION => "ElastiCachePrimaryEngineCPUUtilization"
  | .ELASTICACHE_REPLICA_ENGINE_CPU_UTILIZATION => "ElastiCacheReplicaEngineCPUUtilization"
  | .ELASTICACHE_DATABASE_MEMORY_USAGE_COUNTED_FOR_EVICT_PERCENTAGE => "ElastiCacheDatabaseMemoryUsageCountedForEvictPercentage"
  | .ELASTICACHE_DATABASE_CAPACITY_USAGE_COUNTED_FOR_EVICT_PERCENTAGE => "ElastiCacheDatabaseCapacityUsageCountedForEvictPercentage"
  | .SAGEMAKER_INFERENCE_COMPONENT_CONCURRENT_REQUESTS_PER_COPY_HIGH_RESOLUTION => "SageMakerInferenceComponentConcurrentRequestsPerCopyHighResolution"
  | .SAGEMAKER_VARIANT_CONCURRENT_REQUESTS_PER_MODEL_HIGH_RESOLUTION => "SageMakerVariantConcurrentRequestsPerModelHighResolution"
  | .WORKSPACES_AVERAGE_USER_SESSIONS_CAPACITY_UTILIZATION => "WorkSpacesAverageUserSessionsCapacityUtilization"

/-- The metric stat configuration of a direct CloudWatch metric, as
returned by toMetricConfig().metricStat. -/
structure MetricStatConfig where
  dimensions : List (String × String)
  metricName : String
  metricNamespace : String
  statistic : String
  unitFilter : Option String
  deriving DecidableEq

/-- The metric configuration of an IMetric; metricStat is absent for
math-expression metrics. -/
structure MetricConfig where
  metricStat : Option MetricStatConfig
  deriving DecidableEq

/-- Props of the TargetTrackingScalingPolicy constructor. Durations are
carried as whole seconds and the scalable target as its identifier. -/
structure TargetTrackingScalingPolicyProps where
  policyName : Option String
  disableScaleIn : Option Bool
  scaleInCooldown : Option Nat
  scaleOutCooldown : Option Nat
  targetValue : Int
  predefinedMetric : Option PredefinedMetric
  resourceLabel : Option String
  customMetric : Option MetricConfig
  scalingTargetId : String
  deriving DecidableEq

/-- CustomizedMetricSpecificationProperty of the generated CfnScalingPolicy. -/
structure CustomizedMetricSpecification where
  dimensions : List (String × String)
  metricName : String
  metricNamespace : String
  statistic : String
  unit : Option String
  deriving DecidableEq

/-- PredefinedMetricSpecificationProperty of the generated CfnScalingPolicy. -/
structure PredefinedMetricSpecification where
  predefinedMetricType : String
  resourceLabel : Option String
  deriving DecidableEq

/-- TargetTrackingScalingPolicyConfigurationProperty of the generated
CfnScalingPolicy. -/
structure TargetTrackingConfiguration where
  customizedMetricSpecification : Option CustomizedMetricSpecification
  disableScaleIn : Option Bool
  predefinedMetricSpecification : Option PredefinedMetricSpecification
  scaleInCooldown : Option Nat
  scaleOutCooldown : Option Nat
  targetValue : Int
  deriving DecidableEq

/-- The CfnScalingPolicy resource constructed by the policy. -/
structure CfnScalingPolicy where
  policyName : String
  policyType : String
  scalingTargetId : String
  targetTrackingScalingPolicyConfiguration : TargetTrackingConfiguration
  deriving DecidableEq

/-- Embeds renderCustomMetric of the source: no metric renders no
specification; a statistic starting with the letter p (modelled on the
character data of the string) is rejected; otherwise the metric stat
fields are copied over. The non-null assertion on metricStat would be a
runtime type error when it is absent; the constructor rules that case
out before calling. -/
def renderCustomMetric (metric : Option MetricConfig) :
    Except String (Option CustomizedMetricSpecification) :=
  match metric with
  | none => .ok none
  | some m =>
    match m.metricStat with
    | none => .error "TypeError: metricStat is undefined"
    | some c =>
      if c.statistic.data.head? = some 'p' then
        .error ("ValidationError: Cannot use statistic " ++ c.statistic ++
          " for Target Tracking: only Average, Minimum, Maximum, SampleCount, and Sum are supported.")
      else
        .ok (some { dimensions := c.dimensions, metricName := c.metricName,
                    metricNamespace := c.metricNamespace, statistic := c.statistic,
                    unit := c.unitFilter })

/-- Embeds the TargetTrackingScalingPolicy constructor: it throws when
customMetric and predefinedMetric are both present or both absent, then
when a custom metric is not a direct metric; it replaces the placeholder
DynamoDB write-capacity enum member by the deprecated member holding the
real value, and only then constructs the CfnScalingPolicy. The uniqueId
argument stands for the generated name Names.uniqueId(this); the source
falls back to it when policyName is absent or empty (the JS or-operator
treats the empty string as falsy). -/
def targetTrackingScalingPolicy (uniqueId : String)
    (props : TargetTrackingScalingPolicyProps) : Except String CfnScalingPolicy :=
  if props.customMetric.isNone == props.predefinedMetric.isNone then
    .error "ValidationError: Exactly one of customMetric or predefinedMetric must be specified."
  else if (match props.customMetric with
           | some m => m.metricStat.isNone
           | none => false) then
    .error "ValidationError: Only direct metrics are supported for Target Tracking. Use Step Scaling or supply a Metric object."
  else
    let predefinedMetric :=
      if props.predefinedMetric = some PredefinedMetric.DYNAMODB_WRITE_CAPACITY_UTILIZATION then
        some PredefinedMetric.DYANMODB_WRITE_CAPACITY_UTILIZATION
      else props.predefinedMetric
    match renderCustomMetric props.customMetric with
    | .error e => .error e
    | .ok customizedMetricSpecification =>
      .ok {
        policyName := match props.policyName with
          | some n => if n = "" then uniqueId else n
          | none => uniqueId,
        policyType := "TargetTrackingScaling",
        scalingTargetId := props.scalingTargetId,
        targetTrackingScalingPolicyConfiguration := {
          customizedMetricSpecification := customizedMetricSpecification,
          disableScaleIn := props.disableScaleIn,
          predefinedMetricSpecification := match predefinedMetric with
            | some m => some { predefinedMetricType := m.value,
                               resourceLabel := props.resourceLabel }
            | none => none,
          scaleInCooldown := props.scaleInCooldown,
          scaleOutCooldown := props.scaleOutCooldown,
          targetValue := props.targetValue } }

/-- Props with neither metric source, used by the validation witness. -/
def wPropsBoth : TargetTrackingScalingPolicyProps :=
  { policyName := none, disableScaleIn := none, scaleInCooldown := none,
    scaleOutCooldown := none, targetValue := 50, predefinedMetric := none,
    resourceLabel := none, customMetric := none, scalingTargetId := "target" }

/-- Props with only the placeholder DynamoDB predefined metric, used by
the validation and substitution witnesses. -/
def wPropsPredef : TargetTrackingScalingPolicyProps :=
  { policyName := none, disableScaleIn := none, scaleInCooldown := none,
    scaleOutCooldown := none, targetValue := 50,
    predefinedMetric := some PredefinedMetric.DYNAMODB_WRITE_CAPACITY_UTILIZATION,
    resourceLabel := none, customMetric := none, scalingTargetId := "target" }

/-- The CfnScalingPolicy the constructor produces for wPropsPredef. -/
def wPolicyRecord : CfnScalingPolicy :=
  { policyName := "gen", policyType := "TargetTrackingScaling",
    scalingTargetId := "target",
    targetTrackingScalingPolicyConfiguration := {
      customizedMetricSpecification := none, disableScaleIn := none,
      predefinedMetricSpecification := some {
        predefinedMetricType := "DynamoDBWriteCapacityUtilization",
        resourceLabel := none },
      scaleInCooldown := none, scaleOutCooldown := none, targetValue := 50 } }

/- ### Glue: external table storage parameters

Embedded from packages/@aws-cdk/aws-glue-alpha/lib/external-table.ts. -/

/-- A storage parameter entry of the table props. -/
structure StorageParameter where
  key : String
  value : String
  deriving DecidableEq

/-- Property names of Object.prototype in a JavaScript runtime. The
duplicate-key check of the source uses the JavaScript in operator on a
plain object literal, and in finds inherited properties such as these in
addition to the object's own properties. -/
def objectPrototypeMembers : List String :=
  ["constructor", "hasOwnProperty", "isPrototypeOf", "propertyIsEnumerable",
   "toLocaleString", "toString", "valueOf", "__defineGetter__", "__defineSetter__",
   "__lookupGetter__", "__lookupSetter__", "__proto__"]

/-- The JavaScript in operator on a plain object literal holding the
given own properties. -/
def jsIn (k : String) (own : List (String × String)) : Bool :=
  own.any (fun e => e.1 == k) || objectPrototypeMembers.contains k

/-- Embeds the storageParameters reduce of the ExternalTable constructor:
a parameter key found by the in operator on the accumulator object throws
the duplicate-key error; otherwise the binding is appended. -/
def buildStorageParams : List StorageParameter → List (String × String) →
    Except String (List (String × String))
  | [], acc => .ok acc
  | p :: ps, acc =>
    if jsIn p.key acc then .error ("Duplicate storage parameter key: " ++ p.key)
    else buildStorageParams ps (acc ++ [(p.key, p.value)])

/-- The props of ExternalTable relevant to the storage descriptor. -/
structure ExternalTableProps where
  externalDataLocation : String
  connectionName : String
  compressed : Bool
  storedAsSubDirectories : Option Bool
  storageParameters : Option (List StorageParameter)
  deriving DecidableEq

/-- The storage descriptor of the constructed CfnTable. -/
structure StorageDescriptor where
  location : String
  compressed : Bool
  storedAsSubDirectories : Bool
  parameters : Option (List (String × String))
  deriving DecidableEq

/-- Embeds the storage-descriptor part of the ExternalTable constructor:
parameters are the reduced storage parameters when storageParameters is
given and absent otherwise; a duplicate-key error escapes the
constructor before the table resource is finished. -/
def externalTableStorageDescriptor (props : ExternalTableProps) :
    Except String StorageDescriptor :=
  match props.storageParameters with
  | none =>
    .ok { location := props.externalDataLocation, compressed := props.compressed,
          storedAsSubDirectories := props.storedAsSubDirectories.getD false,
          parameters := none }
  | some ps =>
    match buildStorageParams ps [] with
    | .error e => .error e
    | .ok m =>
      .ok { location := props.externalDataLocation, compressed := props.compressed,
            storedAsSubDirectories := props.storedAsSubDirectories.getD false,
            parameters := some m }

/- ### Theorems -/

/- ### Diff engine: supporting lemmas -/

theorem classifyKey_logicalId (table : ReplacementTable) (desired deployed : Template)
    (k : String) : (classifyKey table desired deployed k).logicalId = k := by
  unfold classifyKey
  cases lookupResource desired k <;> cases lookupResource deployed k <;> simp only
  split <;> rfl

theorem mem_diffKeys (desired deployed : Template) (k : String) :
    k ∈ diffKeys desired deployed ↔
      k ∈ templateKeys desired ∨ k ∈ templateKeys deployed := by
  unfold diffKeys
  rw [(List.perm_insertionSort strLe _).mem_iff, List.mem_dedup, List.mem_append]

theorem nodup_diffKeys (desired deployed : Template) :
    (diffKeys desired deployed).Nodup := by
  unfold diffKeys
  rw [(List.perm_insertionSort strLe _).nodup_iff]
  exact List.nodup_dedup _

theorem lookupResource_eq_none_iff (t : Template) (k : String) :
    lookupResource t k = none ↔ k ∉ templateKeys t := by
  unfold lookupResource templateKeys
  rw [Option.map_eq_none', List.find?_eq_none]
  constructor
  · intro h hk
    obtain ⟨e, he, hek⟩ := List.mem_map.mp hk
    exact h e he (by simp [hek])
  · intro h e he
    simp only [beq_iff_eq]
    intro hek
    exact h (List.mem_map.mpr ⟨e, he, hek⟩)

theorem classifyKey_mem_computeDiff (table : ReplacementTable)
    (desired deployed : Template) (k : String)
    (hmem : k ∈ templateKeys desired ∨ k ∈ templateKeys deployed) :
    classifyKey table desired deployed k ∈ computeDiff table desired deployed := by
  unfold computeDiff
  exact List.mem_map.mpr ⟨k, (mem_diffKeys desired deployed k).mpr hmem, rfl⟩

/-- C1: for every pair of templates, the diff classifies each logical ID
in the union of the two key sets: absent in deployed gives Add, absent in
desired gives Remove, present in both with equal normalized property maps
gives NoOp, and present in both with differing normalized property maps
gives Modify. -/
theorem computeDiff_classifies_each_key (table : ReplacementTable)
    (desired deployed : Template) (k : String)
    (hmem : k ∈ templateKeys desired ∨ k ∈ templateKeys deployed) :
    ∃ c ∈ computeDiff table desired deployed, c.logicalId = k ∧
      (k ∉ templateKeys deployed → c.kind = ChangeKind.add) ∧
      (k ∉ templateKeys desired → c.kind = ChangeKind.remove) ∧
      (k ∈ templateKeys desired → k ∈ templateKeys deployed →
        (resourceProps? desired k = resourceProps? deployed k → c.kind = ChangeKind.noOp) ∧
        (resourceProps? desired k ≠ resourceProps? deployed k → c.kind = ChangeKind.modify)) := by
  refine ⟨classifyKey table desired deployed k,
    classifyKey_mem_computeDiff table desired deployed k hmem,
    classifyKey_logicalId table desired deployed k, ?_, ?_, ?_⟩
  · intro hdep
    have hdep' : lookupResource deployed k = none :=
      (lookupResource_eq_none_iff deployed k).mpr hdep
    have hdes : lookupResource desired k ≠ none := by
      intro hh
      rcases hmem with h | h
      · exact (lookupResource_eq_none_iff desired k).mp hh h
      · exact hdep h
    unfold classifyKey
    rcases hd : lookupResource desired k with _ | d
    · exact absurd hd hdes
    · rw [hdep']
  · intro hdes
    have hdes' : lookupResource desired k = none :=
      (lookupResource_eq_none_iff desired k).mpr hdes
    have hdep : lookupResource deployed k ≠ none := by
      intro hh
      rcases hmem with h | h
      · exact hdes h
      · exact (lookupResource_eq_none_iff deployed k).mp hh h
    unfold classifyKey
    rcases hp : lookupResource deployed k with _ | p
    · exact absurd hp hdep
    · rw [hdes']
  · intro hdes hdep
    have hdes' : lookupResource desired k ≠ none :=
      fun hh => (lookupResource_eq_none_iff desired k).mp hh hdes
    have hdep' : lookupResource deployed k ≠ none :=
      fun hh => (lookupResource_eq_none_iff deployed k).mp hh hdep
    rcases hd : lookupResource desired k with _ | d
    · exact absurd hd hdes'
    rcases hp : lookupResource deployed k with _ | p
    · exact absurd hp hdep'
    unfold resourceProps? classifyKey
    rw [hd, hp]
    simp only [Option.map_some', Option.some.injEq]
    constructor
    · intro heq
      rw [if_pos heq]
    · intro hne
      have hne' : normalizeProps d.properties ≠ normalizeProps p.properties :=
        fun h => hne (by rw [h])
      rw [if_neg hne']

/-- C2: diffing a template against itself yields only NoOp entries. -/
theorem computeDiff_self_all_noOp (table : ReplacementTable) (T : Template) :
    ∀ c ∈ computeDiff table T T, c.kind = ChangeKind.noOp := by
  intro c hc
  obtain ⟨k, _, hck⟩ := List.mem_map.mp hc
  subst hck
  rcases h : lookupResource T k with _ | r <;> simp [classifyKey, h]

/-- C3: each logical ID present in either template appears exactly once
in the diff. -/
theorem computeDiff_each_key_exactly_once (table : ReplacementTable)
    (desired deployed : Template) (k : String)
    (hmem : k ∈ templateKeys desired ∨ k ∈ templateKeys deployed) :
    ((computeDiff table desired deployed).filter
      (fun c => c.logicalId == k)).length = 1 := by
  unfold computeDiff
  rw [List.filter_map, List.length_map]
  have hcongr : List.filter ((fun c => c.logicalId == k) ∘ classifyKey table desired deployed)
      (diffKeys desired deployed) =
      List.filter (fun x => x == k) (diffKeys desired deployed) := by
    apply List.filter_congr
    intro x _
    simp only [Function.comp_apply, classifyKey_logicalId]
  rw [hcongr, ← List.countP_eq_length_filter, ← List.count_eq_countP,
    List.count_eq_one_of_mem (nodup_diffKeys desired deployed)
      ((mem_diffKeys desired deployed k).mpr hmem)]

theorem classifyReplacement_always_iff (table : ReplacementTable) (rt : String)
    (props : List String) :
    classifyReplacement table rt props = Replacement.always ↔
      ∃ p ∈ props, tableLookup table rt p = some Replacement.always := by
  unfold classifyReplacement
  by_cases h : props.any (fun p => tableLookup table rt p == some Replacement.always)
  · rw [if_pos h]
    simp only [true_iff]
    obtain ⟨p, hp, hl⟩ := List.any_eq_true.mp h
    exact ⟨p, hp, by simpa using hl⟩
  · rw [if_neg h]
    constructor
    · intro hh
      split at hh
      · exact absurd hh (by decide)
      split at hh
      · exact absurd hh (by decide)
      · exact absurd hh (by decide)
    · rintro ⟨p, hp, hl⟩
      exact absurd (List.any_eq_true.mpr ⟨p, hp, by simp [hl]⟩) h

theorem computeDiff_modify_replacement (table : ReplacementTable)
    (desired deployed : Template) (c : ResourceChange)
    (hc : c ∈ computeDiff table desired deployed) (hk : c.kind = ChangeKind.modify) :
    c.replacement =
      classifyReplacement table c.resourceType (changedProps c.before c.after) := by
  obtain ⟨k, _, hck⟩ := List.mem_map.mp hc
  subst hck
  rcases hd : lookupResource desired k with _ | d <;>
    rcases hp : lookupResource deployed k with _ | p <;>
    simp only [classifyKey, hd, hp] at hk ⊢
  · simp at hk
  · simp at hk
  · simp at hk
  · by_cases heq : normalizeProps d.properties = normalizeProps p.properties
    · rw [if_pos heq] at hk
      simp at hk
    · rw [if_neg heq] at hk ⊢

/-- C4: in any diff entry of kind Modify, a changed property mapping to
the Always replacement policy forces the whole resource change to be
classified Always, and adding a further Always-mapped property change
never downgrades the classification below Always. -/
theorem computeDiff_always_replacement (table : ReplacementTable)
    (desired deployed : Template) (c : ResourceChange)
    (hc : c ∈ computeDiff table desired deployed) (hk : c.kind = ChangeKind.modify) :
    ((∃ p ∈ changedProps c.before c.after,
        tableLookup table c.resourceType p = some Replacement.always) →
      c.replacement = Replacement.always) ∧
    (∀ p, tableLookup table c.resourceType p = some Replacement.always →
      classifyReplacement table c.resourceType (p :: changedProps c.before c.after) =
        Replacement.always) := by
  constructor
  · intro hex
    rw [computeDiff_modify_replacement table desired deployed c hc hk]
    exact (classifyReplacement_always_iff table c.resourceType _).mpr hex
  · intro p hp
    exact (classifyReplacement_always_iff table c.resourceType _).mpr
      ⟨p, List.mem_cons_self p _, hp⟩

theorem computeDiff_classifies_each_key_witness :
    ∃ c ∈ computeDiff [] wTemplateA [], c.logicalId = "A" ∧
      ("A" ∉ templateKeys [] → c.kind = ChangeKind.add) ∧
      ("A" ∉ templateKeys wTemplateA → c.kind = ChangeKind.remove) ∧
      ("A" ∈ templateKeys wTemplateA → "A" ∈ templateKeys [] →
        (resourceProps? wTemplateA "A" = resourceProps? [] "A" → c.kind = ChangeKind.noOp) ∧
        (resourceProps? wTemplateA "A" ≠ resourceProps? [] "A" → c.kind = ChangeKind.modify)) :=
  computeDiff_classifies_each_key [] wTemplateA [] "A" (Or.inl (by decide))

theorem computeDiff_self_all_noOp_witness :
    (classifyKey [] wTemplateA wTemplateA "A").kind = ChangeKind.noOp :=
  computeDiff_self_all_noOp [] wTemplateA (classifyKey [] wTemplateA wTemplateA "A")
    (by decide)

theorem computeDiff_each_key_exactly_once_witness :
    ((computeDiff [] wTemplateA []).filter (fun c => c.logicalId == "A")).length = 1 :=
  computeDiff_each_key_exactly_once [] wTemplateA [] "A" (Or.inl (by decide))

theorem computeDiff_always_replacement_witness :
    ((∃ p ∈ changedProps (classifyKey wTable wDesired wDeployed "A").before
          (classifyKey wTable wDesired wDeployed "A").after,
        tableLookup wTable (classifyKey wTable wDesired wDeployed "A").resourceType p =
          some Replacement.always) →
      (classifyKey wTable wDesired wDeployed "A").replacement = Replacement.always) ∧
    (∀ p, tableLookup wTable (classifyKey wTable wDesired wDeployed "A").resourceType p =
        some Replacement.always →
      classifyReplacement wTable (classifyKey wTable wDesired wDeployed "A").resourceType
        (p :: changedProps (classifyKey wTable wDesired wDeployed "A").before
          (classifyKey wTable wDesired wDeployed "A").after) = Replacement.always) :=
  computeDiff_always_replacement wTable wDesired wDeployed
    (classifyKey wTable wDesired wDeployed "A") (by decide) (by decide)

/- ### Assembly model: lemmas -/

theorem buildLayers_deps_before (fuel : Nat) :
    ∀ (remaining : List Stack) (placed : List String) (layers : List (List Stack)),
      buildLayers fuel remaining placed = .ok layers →
      ∀ i, (hi : i < layers.length) → ∀ s ∈ layers.get ⟨i, hi⟩, ∀ d ∈ s.deps,
        d ∈ placed ∨
          ∃ j, ∃ (hj : j < layers.length), j < i ∧ ∃ t ∈ layers.get ⟨j, hj⟩, t.id = d := by
  induction fuel with
  | zero =>
    intro remaining placed layers h
    by_cases hr : remaining.isEmpty
    · simp only [buildLayers, hr, if_true, Except.ok.injEq] at h
      subst h
      intro i hi
      exact absurd hi (by simp)
    · simp only [buildLayers, hr, if_false] at h
      exact absurd h (by simp)
  | succ fuel ih =>
    intro remaining placed layers h
    by_cases hr : remaining.isEmpty
    · simp only [buildLayers, hr, if_true, Except.ok.injEq] at h
      subst h
      intro i hi
      exact absurd hi (by simp)
    · simp only [buildLayers, hr, if_false] at h
      by_cases hl : (remaining.filter (readyStack placed)).isEmpty
      · rw [if_pos hl] at h
        exact absurd h (by simp)
      · rw [if_neg hl] at h
        rcases hrec : buildLayers fuel (remaining.filter (fun s => !readyStack placed s))
            (placed ++ (remaining.filter (readyStack placed)).map (fun s => s.id)) with e | rest
        · rw [hrec] at h
          exact absurd h (by simp)
        · rw [hrec] at h
          simp at h
          subst h
          intro i hi s hs d hd
          match i, hi with
          | 0, _ =>
            have hready : readyStack placed s = true := (List.mem_filter.mp hs).2
            have : d ∈ placed := by
              have := (List.all_eq_true.mp hready) d hd
              simpa using this
            exact Or.inl this
          | i₂ + 1, hi₂ =>
            have hi₂r : i₂ < rest.length := by
              simpa using Nat.lt_of_succ_lt_succ hi₂
            rcases ih _ _ rest hrec i₂ hi₂r s hs d hd with hp | ⟨j, hj, hji, t, ht, htid⟩
            · rcases List.mem_append.mp hp with hp | hp
              · exact Or.inl hp
              · obtain ⟨t, htl, htid⟩ := List.mem_map.mp hp
                exact Or.inr ⟨0, by simp, Nat.succ_pos _, t, htl, htid⟩
            · exact Or.inr ⟨j + 1, by simpa using Nat.succ_lt_succ hj, Nat.succ_lt_succ hji,
                t, ht, htid⟩

theorem buildLayers_covers (fuel : Nat) :
    ∀ (remaining : List Stack) (placed : List String) (layers : List (List Stack)),
      buildLayers fuel remaining placed = .ok layers →
      ∀ s ∈ remaining, ∃ i, ∃ (hi : i < layers.length), s ∈ layers.get ⟨i, hi⟩ := by
  induction fuel with
  | zero =>
    intro remaining placed layers h s hs
    by_cases hr : remaining.isEmpty
    · rw [List.isEmpty_iff.mp hr] at hs
      exact absurd hs (by simp)
    · simp only [buildLayers, hr, if_false] at h
      exact absurd h (by simp)
  | succ fuel ih =>
    intro remaining placed layers h s hs
    by_cases hr : remaining.isEmpty
    · rw [List.isEmpty_iff.mp hr] at hs
      exact absurd hs (by simp)
    · simp only [buildLayers, hr, if_false] at h
      by_cases hl : (remaining.filter (readyStack placed)).isEmpty
      · rw [if_pos hl] at h
        exact absurd h (by simp)
      · rw [if_neg hl] at h
        rcases hrec : buildLayers fuel (remaining.filter (fun s => !readyStack placed s))
            (placed ++ (remaining.filter (readyStack placed)).map (fun s => s.id)) with e | rest
        · rw [hrec] at h
          exact absurd h (by simp)
        · rw [hrec] at h
          simp at h
          subst h
          by_cases hsready : readyStack placed s = true
          · exact ⟨0, by simp, List.mem_filter.mpr ⟨hs, hsready⟩⟩
          · have hs' : s ∈ remaining.filter (fun s => !readyStack placed s) :=
              List.mem_filter.mpr ⟨hs, by simp [hsready]⟩
            obtain ⟨i, hi, hmem⟩ := ih _ _ rest hrec s hs'
            exact ⟨i + 1, by simpa using Nat.succ_lt_succ hi, hmem⟩

theorem acyclic_exists_source (asm : Assembly) (R : List Stack)
    (hsub : ∀ s ∈ R, s ∈ asm) (hne : R ≠ []) (hacyc : ¬ hasCycle asm) :
    ∃ s ∈ R, ∀ d ∈ s.deps, ¬ ∃ t ∈ R, t.id = d := by
  classical
  haveI hfin : Finite {x // x ∈ R} := R.finite_toSet.to_subtype
  let step : {x // x ∈ R} → {x // x ∈ R} → Prop :=
    fun a b => dependsOn asm b.val.id a.val.id
  have hlift : ∀ {x y : {x // x ∈ R}}, Relation.TransGen step x y →
      Relation.TransGen (dependsOn asm) y.val.id x.val.id := by
    intro x y h
    induction h with
    | single h => exact Relation.TransGen.single h
    | tail _ hstep ih => exact Relation.TransGen.head hstep ih
  haveI : IsTrans {x // x ∈ R} (Relation.TransGen step) :=
    ⟨fun _ _ _ => Relation.TransGen.trans⟩
  haveI : IsIrrefl {x // x ∈ R} (Relation.TransGen step) := by
    refine ⟨fun a ha => hacyc ⟨a.val.id, hlift ha⟩⟩
  have hwf := Finite.wellFounded_of_trans_of_irrefl (Relation.TransGen step)
  obtain ⟨s0, hs0⟩ := List.exists_mem_of_ne_nil R hne
  obtain ⟨m, -, hmin⟩ := hwf.has_min Set.univ ⟨⟨s0, hs0⟩, Set.mem_univ _⟩
  refine ⟨m.val, m.prop, ?_⟩
  rintro d hd ⟨t, htR, htid⟩
  exact hmin ⟨t, htR⟩ (Set.mem_univ _)
    (Relation.TransGen.single ⟨m.val, hsub m.val m.prop, rfl, htid ▸ hd⟩)

theorem buildLayers_ok_of_acyclic (asm : Assembly) (hacyc : ¬ hasCycle asm) :
    ∀ (fuel : Nat) (remaining : List Stack) (placed : List String),
      (∀ s ∈ remaining, s ∈ asm) →
      (∀ s ∈ remaining, ∀ d ∈ s.deps, d ∈ placed ∨ ∃ t ∈ remaining, t.id = d) →
      remaining.length ≤ fuel →
      ∃ layers, buildLayers fuel remaining placed = .ok layers := by
  intro fuel
  induction fuel with
  | zero =>
    intro remaining placed _ _ hlen
    have hnil : remaining = [] := List.eq_nil_of_length_eq_zero (Nat.le_zero.mp hlen)
    subst hnil
    exact ⟨[], by simp [buildLayers]⟩
  | succ fuel ih =>
    intro remaining placed hsub hinv hlen
    by_cases hr : remaining.isEmpty
    · exact ⟨[], by simp [buildLayers, hr]⟩
    · have hne : remaining ≠ [] := by simpa [List.isEmpty_eq_false] using hr
      obtain ⟨s, hsR, hsrc⟩ := acyclic_exists_source asm remaining hsub hne hacyc
      have hready : readyStack placed s = true := by
        unfold readyStack
        rw [List.all_eq_true]
        intro d hd
        rcases hinv s hsR d hd with h | h
        · simpa using h
        · exact absurd h (hsrc d hd)
      have hlayer_mem : s ∈ remaining.filter (readyStack placed) :=
        List.mem_filter.mpr ⟨hsR, hready⟩
      have hlayer : ¬ (remaining.filter (readyStack placed)).isEmpty := by
        rw [List.isEmpty_iff]
        exact List.ne_nil_of_mem hlayer_mem
      have hsub' : ∀ u ∈ remaining.filter (fun v => !readyStack placed v), u ∈ asm :=
        fun u hu => hsub u (List.mem_of_mem_filter hu)
      have hinv' : ∀ u ∈ remaining.filter (fun v => !readyStack placed v), ∀ d ∈ u.deps,
          d ∈ placed ++ (remaining.filter (readyStack placed)).map (fun v => v.id) ∨
            ∃ t ∈ remaining.filter (fun v => !readyStack placed v), t.id = d := by
        intro u hu d hd
        rcases hinv u (List.mem_of_mem_filter hu) d hd with h | ⟨t, htR, htid⟩
        · exact Or.inl (List.mem_append_left _ h)
        · by_cases hrt : readyStack placed t = true
          · refine Or.inl (List.mem_append_right _ ?_)
            exact List.mem_map.mpr ⟨t, List.mem_filter.mpr ⟨htR, hrt⟩, htid⟩
          · exact Or.inr ⟨t, List.mem_filter.mpr ⟨htR, by simp [hrt]⟩, htid⟩
      have hlen' : (remaining.filter (fun v => !readyStack placed v)).length ≤ fuel := by
        have hlt : (remaining.filter (fun v => !readyStack placed v)).length <
            remaining.length :=
          List.length_filter_lt_length_iff_exists.mpr ⟨s, hsR, by simp [hready]⟩
        omega
      obtain ⟨rest, hrest⟩ := ih (remaining.filter (fun v => !readyStack placed v))
        (placed ++ (remaining.filter (readyStack placed)).map (fun v => v.id))
        hsub' hinv' hlen'
      refine ⟨remaining.filter (readyStack placed) :: rest, ?_⟩
      simp only [buildLayers]
      rw [if_neg hr, if_neg hlayer, hrest]

theorem cycleMembers_step (asm : Assembly) (a : String)
    (hcyc : Relation.TransGen (dependsOn asm) a a) (m : String)
    (hm : cycleMembers asm a m) :
    ∃ y, cycleMembers asm a y ∧ dependsOn asm m y := by
  obtain ⟨ham, hma⟩ := hm
  obtain ⟨b, hmb, hba⟩ := Relation.TransGen.head'_iff.mp hma
  exact ⟨b, ⟨ham.tail hmb, Relation.TransGen.trans_right hba hcyc⟩, hmb⟩

theorem stack_unique (asm : Assembly) (hnodup : (stackIds asm).Nodup) {s t : Stack}
    (hs : s ∈ asm) (ht : t ∈ asm) (hid : s.id = t.id) : s = t :=
  List.inj_on_of_nodup_map hnodup hs ht hid

theorem cycle_blocks_buildLayers (asm : Assembly) (hnodup : (stackIds asm).Nodup)
    (a : String) (hcyc : Relation.TransGen (dependsOn asm) a a) :
    ∀ (fuel : Nat) (remaining : List Stack) (placed : List String),
      (∀ u ∈ remaining, u ∈ asm) →
      (∀ m, cycleMembers asm a m → ∃ s ∈ remaining, s.id = m) →
      (∀ m, cycleMembers asm a m → m ∉ placed) →
      ∃ ms, buildLayers fuel remaining placed = .error (.cyclicDependency ms) := by
  intro fuel
  induction fuel with
  | zero =>
    intro remaining placed _ hM1 _
    obtain ⟨s, hsR, _⟩ := hM1 a ⟨hcyc, hcyc⟩
    have hr : ¬ remaining.isEmpty = true := by
      rw [List.isEmpty_iff]
      exact fun hh => by rw [hh] at hsR; exact absurd hsR (by simp)
    exact ⟨remaining.map (fun u => u.id), by simp [buildLayers, hr]⟩
  | succ fuel ih =>
    intro remaining placed hsub hM1 hM2
    obtain ⟨s0, hs0R, _⟩ := hM1 a ⟨hcyc, hcyc⟩
    have hr : ¬ remaining.isEmpty = true := by
      rw [List.isEmpty_iff]
      exact fun hh => by rw [hh] at hs0R; exact absurd hs0R (by simp)
    have hlayerM : ∀ u ∈ remaining.filter (readyStack placed), ¬ cycleMembers asm a u.id := by
      intro u hu hmu
      obtain ⟨y, hyM, t, htasm, htid, hydep⟩ := cycleMembers_step asm a hcyc u.id hmu
      have htu : t = u :=
        stack_unique asm hnodup htasm (hsub u (List.mem_of_mem_filter hu)) htid
      have hydep' : y ∈ u.deps := htu ▸ hydep
      have hready : readyStack placed u = true := (List.mem_filter.mp hu).2
      have hyp : y ∈ placed := by
        have := (List.all_eq_true.mp hready) y hydep'
        simpa using this
      exact hM2 y hyM hyp
    by_cases hl : (remaining.filter (readyStack placed)).isEmpty
    · exact ⟨remaining.map (fun u => u.id), by
        simp only [buildLayers]
        rw [if_neg hr, if_pos hl]⟩
    · have hsub' : ∀ u ∈ remaining.filter (fun v => !readyStack placed v), u ∈ asm :=
        fun u hu => hsub u (List.mem_of_mem_filter hu)
      have hM1' : ∀ m, cycleMembers asm a m →
          ∃ s ∈ remaining.filter (fun v => !readyStack placed v), s.id = m := by
        intro m hm
        obtain ⟨s, hsR, hsid⟩ := hM1 m hm
        have hnr : ¬ readyStack placed s = true := by
          intro hready
          exact hlayerM s (List.mem_filter.mpr ⟨hsR, hready⟩) (hsid ▸ hm)
        exact ⟨s, List.mem_filter.mpr ⟨hsR, by simp [hnr]⟩, hsid⟩
      have hM2' : ∀ m, cycleMembers asm a m →
          m ∉ placed ++ (remaining.filter (readyStack placed)).map (fun v => v.id) := by
        intro m hm hmem
        rcases List.mem_append.mp hmem with h | h
        · exact hM2 m hm h
        · obtain ⟨u, hu, huid⟩ := List.mem_map.mp h
          exact hlayerM u hu (huid ▸ hm)
      obtain ⟨ms, hms⟩ := ih _ _ hsub' hM1' hM2'
      refine ⟨ms, ?_⟩
      simp only [buildLayers]
      rw [if_neg hr, if_neg hl, hms]

theorem depsResolve_of_unresolvedDep_none (asm : Assembly)
    (h : unresolvedDep asm = none) : depsResolve asm := by
  intro s hs d hd
  have h1 := List.findSome?_eq_none_iff.mp h s hs
  rw [Option.map_eq_none', List.find?_eq_none] at h1
  have h2 := h1 d hd
  simpa using h2

theorem unresolvedDep_none_of_depsResolve (asm : Assembly)
    (h : depsResolve asm) : unresolvedDep asm = none := by
  rw [unresolvedDep, List.findSome?_eq_none_iff]
  intro s hs
  rw [Option.map_eq_none', List.find?_eq_none]
  intro d hd
  simp only [Bool.not_eq_true']
  simpa using h s hs d hd

/-- C5: for every assembly whose dependency graph is a valid DAG (all
dependencies resolve and there is no cycle) loading succeeds and the
topological layers place every stack strictly after all its
dependencies; a resolving assembly with a cycle fails with
CyclicDependency before any layer is produced; an assembly with a
dependency naming no stack fails with UnknownDependency. -/
theorem loadAssembly_spec (asm : Assembly) :
    (depsResolve asm → ¬ hasCycle asm →
      ∃ layers, loadAssembly asm = .ok layers ∧ layersSound layers ∧
        ∀ s ∈ asm, ∃ i, ∃ (hi : i < layers.length), s ∈ layers.get ⟨i, hi⟩) ∧
    ((stackIds asm).Nodup → depsResolve asm → hasCycle asm →
      ∃ ms, loadAssembly asm = .error (.cyclicDependency ms)) ∧
    (¬ depsResolve asm →
      ∃ sid d, loadAssembly asm = .error (.unknownDependency sid d)) := by
  refine ⟨?_, ?_, ?_⟩
  · intro hres hacyc
    have hinv : ∀ s ∈ asm, ∀ d ∈ s.deps, d ∈ ([] : List String) ∨ ∃ t ∈ asm, t.id = d := by
      intro s hs d hd
      obtain ⟨t, ht, htid⟩ := List.mem_map.mp (hres s hs d hd)
      exact Or.inr ⟨t, ht, htid⟩
    obtain ⟨layers, hlay⟩ := buildLayers_ok_of_acyclic asm hacyc asm.length asm []
      (fun _ hs => hs) hinv (le_refl _)
    have hload : loadAssembly asm = .ok layers := by
      unfold loadAssembly
      rw [unresolvedDep_none_of_depsResolve asm hres]
      exact hlay
    refine ⟨layers, hload, ?_, ?_⟩
    · unfold layersSound
      intro i hi s hs d hd
      rcases buildLayers_deps_before asm.length asm [] layers hlay i hi s hs d hd with h | h
      · exact absurd h (by simp)
      · exact h
    · intro s hs
      exact buildLayers_covers asm.length asm [] layers hlay s hs
  · intro hnodup hres hcyc
    obtain ⟨a, ha⟩ := hcyc
    have hM1 : ∀ m, cycleMembers asm a m → ∃ s ∈ asm, s.id = m := by
      intro m hm
      obtain ⟨b, hmb, -⟩ := Relation.TransGen.head'_iff.mp hm.2
      obtain ⟨s, hs, hsid, -⟩ := hmb
      exact ⟨s, hs, hsid⟩
    obtain ⟨ms, hms⟩ := cycle_blocks_buildLayers asm hnodup a ha asm.length asm []
      (fun _ hu => hu) hM1 (fun m _ h => by simp at h)
    refine ⟨ms, ?_⟩
    unfold loadAssembly
    rw [unresolvedDep_none_of_depsResolve asm hres]
    exact hms
  · intro hres
    rcases hu : unresolvedDep asm with _ | e
    · exact absurd (depsResolve_of_unresolvedDep_none asm hu) hres
    · refine ⟨e.1, e.2, ?_⟩
      unfold loadAssembly
      rw [hu]

theorem wAsmDag_acyclic : ¬ hasCycle wAsmDag := by
  rintro ⟨a, ha⟩
  have hedge : ∀ x y, dependsOn wAsmDag x y → x = "B" ∧ y = "A" := by
    rintro x y ⟨s, hs, hsid, hdep⟩
    simp only [wAsmDag, List.mem_cons, List.not_mem_nil, or_false] at hs
    rcases hs with hs | hs <;> subst hs
    · simp at hdep
    · simp only [List.mem_singleton] at hdep
      exact ⟨hsid.symm, hdep⟩
  have hpath : ∀ x y, Relation.TransGen (dependsOn wAsmDag) x y → x = "B" ∧ y = "A" := by
    intro x y h
    induction h with
    | single h => exact hedge _ _ h
    | tail _ hstep ih =>
      obtain ⟨hx, hb⟩ := ih
      obtain ⟨hb', hy⟩ := hedge _ _ hstep
      rw [hb] at hb'
      exact absurd hb' (by decide)
  obtain ⟨h1, h2⟩ := hpath a a ha
  rw [h1] at h2
  exact absurd h2 (by decide)

theorem wAsmCyc_cyclic : hasCycle wAsmCyc :=
  ⟨"A", Relation.TransGen.head
    ⟨{ id := "A", deps := ["B"] }, by simp [wAsmCyc], rfl, by simp⟩
    (Relation.TransGen.single
      ⟨{ id := "B", deps := ["A"] }, by simp [wAsmCyc], rfl, by simp⟩)⟩

theorem loadAssembly_spec_witness :
    (∃ layers, loadAssembly wAsmDag = .ok layers ∧ layersSound layers ∧
        ∀ s ∈ wAsmDag, ∃ i, ∃ (hi : i < layers.length), s ∈ layers.get ⟨i, hi⟩) ∧
    (∃ ms, loadAssembly wAsmCyc = .error (.cyclicDependency ms)) ∧
    (∃ sid d, loadAssembly wAsmBad = .error (.unknownDependency sid d)) :=
  ⟨(loadAssembly_spec wAsmDag).1 (by decide) wAsmDag_acyclic,
   (loadAssembly_spec wAsmCyc).2.1 (by decide) (by decide) wAsmCyc_cyclic,
   (loadAssembly_spec wAsmBad).2.2 (by decide)⟩

/- ### Deployment orchestrator: lemmas -/

theorem setStatus_ne {st : DeployState} {sid : String} {v : StackStatus} {x : String}
    (hx : x ≠ sid) : setStatus st sid v x = st x := by
  simp [setStatus, hx]

theorem setStatus_eq {st : DeployState} {sid : String} {v : StackStatus} :
    setStatus st sid v sid = v := by
  simp [setStatus]

theorem deploy_invariant_step (asm : Assembly) (hnodup : (stackIds asm).Nodup)
    {st₁ : DeployState}
    (ih : ∀ s ∈ asm, StackStatus.started (st₁ s.id) = true →
      ∀ d ∈ s.deps, st₁ d = StackStatus.succeeded)
    (u : Stack) (hu : u ∈ asm) {P V : StackStatus} (hpre : st₁ u.id = P)
    (hPns : P ≠ StackStatus.succeeded)
    (hVdeps : StackStatus.started V = true → ∀ d ∈ u.deps, st₁ d = StackStatus.succeeded) :
    ∀ s ∈ asm, StackStatus.started ((setStatus st₁ u.id V) s.id) = true →
      ∀ d ∈ s.deps, (setStatus st₁ u.id V) d = StackStatus.succeeded := by
  intro s hs hst d hd
  by_cases hsu : s.id = u.id
  · have hsequ : s = u := stack_unique asm hnodup hs hu hsu
    rw [hsu, setStatus_eq] at hst
    have hd1 : st₁ d = StackStatus.succeeded := hVdeps hst d (hsequ ▸ hd)
    by_cases hdu : d = u.id
    · rw [hdu, hpre] at hd1
      exact absurd hd1 hPns
    · rw [setStatus_ne hdu]
      exact hd1
  · have hst₁ : StackStatus.started (st₁ s.id) = true := by
      rwa [setStatus_ne hsu] at hst
    have hd1 : st₁ d = StackStatus.succeeded := ih s hs hst₁ d hd
    by_cases hdu : d = u.id
    · rw [hdu, hpre] at hd1
      exact absurd hd1 hPns
    · rw [setStatus_ne hdu]
      exact hd1

theorem deploy_invariant (asm : Assembly) (hnodup : (stackIds asm).Nodup)
    {st : DeployState} (hreach : ReachableDeploy asm st) :
    ∀ s ∈ asm, StackStatus.started (st s.id) = true →
      ∀ d ∈ s.deps, st d = StackStatus.succeeded := by
  induction hreach with
  | refl =>
    intro s _ hst
    exact Bool.noConfusion hst
  | tail _ hstep ih =>
    cases hstep with
    | start u hu hpend hdeps =>
      exact deploy_invariant_step asm hnodup ih u hu hpend (by decide) (fun _ => hdeps)
    | finishOk u hu hrun =>
      exact deploy_invariant_step asm hnodup ih u hu hrun (by decide)
        (fun _ => ih u hu (by rw [hrun]; rfl))
    | finishFail u hu hrun =>
      exact deploy_invariant_step asm hnodup ih u hu hrun (by decide)
        (fun _ => ih u hu (by rw [hrun]; rfl))
    | rollback u hu hfail =>
      exact deploy_invariant_step asm hnodup ih u hu hfail (by decide)
        (fun _ => ih u hu (by rw [hfail]; rfl))
    | skip u hu hpend d hd hbad =>
      exact deploy_invariant_step asm hnodup ih u hu hpend (by decide)
        (fun hV => absurd hV (by decide))

theorem deployStep_bad_stable {asm : Assembly} {st st' : DeployState}
    (h : DeployStep asm st st') (x : String)
    (hx : st x = StackStatus.failed ∨ st x = StackStatus.rolledBack) :
    st' x = StackStatus.failed ∨ st' x = StackStatus.rolledBack := by
  cases h with
  | start u hu hpend hdeps =>
    by_cases hxu : x = u.id
    · rw [hxu, hpend] at hx
      rcases hx with hx | hx <;> exact absurd hx (by decide)
    · rwa [setStatus_ne hxu]
  | finishOk u hu hrun =>
    by_cases hxu : x = u.id
    · rw [hxu, hrun] at hx
      rcases hx with hx | hx <;> exact absurd hx (by decide)
    · rwa [setStatus_ne hxu]
  | finishFail u hu hrun =>
    by_cases hxu : x = u.id
    · rw [hxu, hrun] at hx
      rcases hx with hx | hx <;> exact absurd hx (by decide)
    · rwa [setStatus_ne hxu]
  | rollback u hu hfail =>
    by_cases hxu : x = u.id
    · rw [hxu, setStatus_eq]
      exact Or.inr rfl
    · rwa [setStatus_ne hxu]
  | skip u hu hpend d hd hbad =>
    by_cases hxu : x = u.id
    · rw [hxu, hpend] at hx
      rcases hx with hx | hx <;> exact absurd hx (by decide)
    · rwa [setStatus_ne hxu]

theorem deploy_no_cancelled (asm : Assembly) {st : DeployState}
    (hreach : ReachableDeploy asm st) (x : String) :
    st x ≠ StackStatus.cancelled := by
  induction hreach with
  | refl => simp [initState]
  | tail _ hstep ih =>
    cases hstep with
    | start u hu hpend hdeps =>
      by_cases hxu : x = u.id
      · rw [hxu, setStatus_eq]; simp
      · rwa [setStatus_ne hxu]
    | finishOk u hu hrun =>
      by_cases hxu : x = u.id
      · rw [hxu, setStatus_eq]; simp
      · rwa [setStatus_ne hxu]
    | finishFail u hu hrun =>
      by_cases hxu : x = u.id
      · rw [hxu, setStatus_eq]; simp
      · rwa [setStatus_ne hxu]
    | rollback u hu hfail =>
      by_cases hxu : x = u.id
      · rw [hxu, setStatus_eq]; simp
      · rwa [setStatus_ne hxu]
    | skip u hu hpend d hd hbad =>
      by_cases hxu : x = u.id
      · rw [hxu, setStatus_eq]; simp
      · rwa [setStatus_ne hxu]

theorem deploy_skip_stays (asm : Assembly) (hnodup : (stackIds asm).Nodup)
    (s : Stack) (hs : s ∈ asm) (d : String) (hd : d ∈ s.deps)
    {st : DeployState}
    (hbad : st d = StackStatus.failed ∨ st d = StackStatus.rolledBack)
    (hs0 : st s.id = StackStatus.pending ∨ st s.id = StackStatus.skipped) :
    ∀ st', Relation.ReflTransGen (DeployStep asm) st st' →
      (st' d = StackStatus.failed ∨ st' d = StackStatus.rolledBack) ∧
      (st' s.id = StackStatus.pending ∨ st' s.id = StackStatus.skipped) := by
  intro st' hsteps
  induction hsteps with
  | refl => exact ⟨hbad, hs0⟩
  | tail _ hstep ih =>
    obtain ⟨ihd, ihs⟩ := ih
    refine ⟨deployStep_bad_stable hstep d ihd, ?_⟩
    cases hstep with
    | start u hu hpend hdeps =>
      by_cases hsu : s.id = u.id
      · have hsequ : s = u := stack_unique asm hnodup hs hu hsu
        have hsucc := hdeps d (hsequ ▸ hd)
        rcases ihd with h | h <;> rw [hsucc] at h <;> exact absurd h (by decide)
      · rw [setStatus_ne hsu]
        exact ihs
    | finishOk u hu hrun =>
      by_cases hsu : s.id = u.id
      · rw [hsu, hrun] at ihs
        rcases ihs with h | h <;> exact absurd h (by decide)
      · rw [setStatus_ne hsu]
        exact ihs
    | finishFail u hu hrun =>
      by_cases hsu : s.id = u.id
      · rw [hsu, hrun] at ihs
        rcases ihs with h | h <;> exact absurd h (by decide)
      · rw [setStatus_ne hsu]
        exact ihs
    | rollback u hu hfail =>
      by_cases hsu : s.id = u.id
      · rw [hsu, hfail] at ihs
        rcases ihs with h | h <;> exact absurd h (by decide)
      · rw [setStatus_ne hsu]
        exact ihs
    | skip u hu hpend d2 hd2 hbad2 =>
      by_cases hsu : s.id = u.id
      · rw [hsu, setStatus_eq]
        exact Or.inr rfl
      · rw [setStatus_ne hsu]
        exact ihs

theorem deploy_not_started_of_dep_bad (asm : Assembly) (hnodup : (stackIds asm).Nodup)
    (s : Stack) (hs : s ∈ asm) (d : String) (hd : d ∈ s.deps)
    {st : DeployState} (hreach : ReachableDeploy asm st)
    (hbad : st d = StackStatus.failed ∨ st d = StackStatus.rolledBack) :
    st s.id = StackStatus.pending ∨ st s.id = StackStatus.skipped := by
  cases hstat : st s.id with
  | pending => exact Or.inl rfl
  | skipped => exact Or.inr rfl
  | cancelled => exact absurd hstat (deploy_no_cancelled asm hreach s.id)
  | inProgress =>
    have hstart : StackStatus.started (st s.id) = true := by rw [hstat]; rfl
    have hsucc := deploy_invariant asm hnodup hreach s hs hstart d hd
    rcases hbad with h | h <;> rw [hsucc] at h <;> exact absurd h (by decide)
  | succeeded =>
    have hstart : StackStatus.started (st s.id) = true := by rw [hstat]; rfl
    have hsucc := deploy_invariant asm hnodup hreach s hs hstart d hd
    rcases hbad with h | h <;> rw [hsucc] at h <;> exact absurd h (by decide)
  | failed =>
    have hstart : StackStatus.started (st s.id) = true := by rw [hstat]; rfl
    have hsucc := deploy_invariant asm hnodup hreach s hs hstart d hd
    rcases hbad with h | h <;> rw [hsucc] at h <;> exact absurd h (by decide)
  | rolledBack =>
    have hstart : StackStatus.started (st s.id) = true := by rw [hstat]; rfl
    have hsucc := deploy_invariant asm hnodup hreach s hs hstart d hd
    rcases hbad with h | h <;> rw [hsucc] at h <;> exact absurd h (by decide)

/-- C6: in every orchestrator execution, a stack is in progress or done
only when every one of its dependencies has already succeeded; and from
any reachable state in which a dependency is failed or rolled back, the
dependent stack is never in progress in any later state, and the only
terminal status it can take is skipped. -/
theorem deploy_dependency_discipline (asm : Assembly) (hnodup : (stackIds asm).Nodup)
    (s : Stack) (hs : s ∈ asm) :
    (∀ st, ReachableDeploy asm st →
      st s.id = StackStatus.inProgress ∨ st s.id = StackStatus.succeeded →
      ∀ d ∈ s.deps, st d = StackStatus.succeeded) ∧
    (∀ d, d ∈ s.deps → ∀ st, ReachableDeploy asm st →
      st d = StackStatus.failed ∨ st d = StackStatus.rolledBack →
      ∀ st', Relation.ReflTransGen (DeployStep asm) st st' →
        st' s.id ≠ StackStatus.inProgress ∧
        (StackStatus.isTerminal (st' s.id) = true → st' s.id = StackStatus.skipped)) := by
  constructor
  · intro st hreach hrun d hd
    have hstart : StackStatus.started (st s.id) = true := by
      rcases hrun with h | h <;> rw [h] <;> rfl
    exact deploy_invariant asm hnodup hreach s hs hstart d hd
  · intro d hd st hreach hbad st' hsteps
    have hs0 := deploy_not_started_of_dep_bad asm hnodup s hs d hd hreach hbad
    have hstay := (deploy_skip_stays asm hnodup s hs d hd hbad hs0 st' hsteps).2
    constructor
    · rcases hstay with h | h <;> rw [h] <;> exact (by decide)
    · intro hterm
      rcases hstay with h | h
      · rw [h] at hterm
        exact absurd hterm (by decide)
      · exact h

theorem wReachB1 : ReachableDeploy wAsmDag wStB1 := by
  have h1 : DeployStep wAsmDag initState wStA1 :=
    DeployStep.start initState { id := "A", deps := [] } (by decide) rfl (by decide)
  have h2 : DeployStep wAsmDag wStA1 wStA2 :=
    DeployStep.finishOk wStA1 { id := "A", deps := [] } (by decide) (by decide)
  have h3 : DeployStep wAsmDag wStA2 wStB1 :=
    DeployStep.start wStA2 wStackB (by decide) (by decide) (by decide)
  exact Relation.ReflTransGen.tail
    (Relation.ReflTransGen.tail (Relation.ReflTransGen.single h1) h2) h3

theorem wReachAF : ReachableDeploy wAsmDag wStAF := by
  have h1 : DeployStep wAsmDag initState wStA1 :=
    DeployStep.start initState { id := "A", deps := [] } (by decide) rfl (by decide)
  have h2 : DeployStep wAsmDag wStA1 wStAF :=
    DeployStep.finishFail wStA1 { id := "A", deps := [] } (by decide) (by decide)
  exact Relation.ReflTransGen.tail (Relation.ReflTransGen.single h1) h2

theorem deploy_dependency_discipline_witness :
    (∀ d ∈ wStackB.deps, wStB1 d = StackStatus.succeeded) ∧
    (wStAF wStackB.id ≠ StackStatus.inProgress ∧
      (StackStatus.isTerminal (wStAF wStackB.id) = true →
        wStAF wStackB.id = StackStatus.skipped)) :=
  ⟨(deploy_dependency_discipline wAsmDag (by decide) wStackB (by decide)).1 wStB1
      wReachB1 (Or.inl (by decide)),
   (deploy_dependency_discipline wAsmDag (by decide) wStackB (by decide)).2 "A"
      (by decide) wStAF wReachAF (Or.inl (by decide)) wStAF Relation.ReflTransGen.refl⟩

theorem computeDiff_replacement_always_kind (table : ReplacementTable)
    (desired deployed : Template) (c : ResourceChange)
    (hc : c ∈ computeDiff table desired deployed)
    (hr : c.replacement = Replacement.always) : c.kind = ChangeKind.modify := by
  obtain ⟨k, _, hck⟩ := List.mem_map.mp hc
  subst hck
  rcases hd : lookupResource desired k with _ | d <;>
    rcases hp : lookupResource deployed k with _ | p <;>
    simp only [classifyKey, hd, hp] at hr ⊢
  · simp at hr
  · simp at hr
  · simp at hr
  · by_cases heq : normalizeProps d.properties = normalizeProps p.properties
    · rw [if_pos heq] at hr
      simp at hr
    · rw [if_neg heq]

/-- C7: a diff containing at least one Add, one Remove, or one
Always-replacement change makes the Planning state choose the full
change-set strategy, whatever the opt-in flag and whatever the in-place
and security classifications say; no hotswap plan is produced for any
part of such a diff. -/
theorem executor_full_changeset_on_structural_change (table : ReplacementTable)
    (desired deployed : Template) (optIn : Bool)
    (inPlace securityRelevant : ResourceChange → Bool)
    (hex : ∃ c ∈ computeDiff table desired deployed,
      c.kind = ChangeKind.add ∨ c.kind = ChangeKind.remove ∨
        c.replacement = Replacement.always) :
    chooseStrategy optIn inPlace securityRelevant (computeDiff table desired deployed) =
      DeployStrategy.changeSet := by
  obtain ⟨c, hc, hctype⟩ := hex
  have hcond : ¬ (optIn &&
      (computeDiff table desired deployed).all
        (hotswapEligible inPlace securityRelevant)) = true := by
    intro hall
    rw [Bool.and_eq_true] at hall
    have hel := List.all_eq_true.mp hall.2 c hc
    unfold hotswapEligible at hel
    rcases hctype with hk | hk | hr
    · rw [hk] at hel
      simp at hel
    · rw [hk] at hel
      simp at hel
    · have hk := computeDiff_replacement_always_kind table desired deployed c hc hr
      rw [hk, hr] at hel
      simp at hel
  unfold chooseStrategy
  rw [if_neg hcond]

theorem executor_full_changeset_witness :
    chooseStrategy true (fun _ => true) (fun _ => false) (computeDiff [] wTemplateA []) =
      DeployStrategy.changeSet :=
  executor_full_changeset_on_structural_change [] wTemplateA [] true (fun _ => true)
    (fun _ => false) (by decide)

/-- C8: the constructor throws the validation error whenever customMetric
and predefinedMetric are both given or both missing, before any resource
is built, and a CfnScalingPolicy results only when exactly one of the two
is specified. -/
theorem targetTracking_exactly_one_metric (uniqueId : String)
    (props : TargetTrackingScalingPolicyProps) :
    (props.customMetric.isNone = props.predefinedMetric.isNone →
      targetTrackingScalingPolicy uniqueId props =
        .error "ValidationError: Exactly one of customMetric or predefinedMetric must be specified.") ∧
    (∀ r, targetTrackingScalingPolicy uniqueId props = .ok r →
      (props.customMetric.isSome = true ∧ props.predefinedMetric.isNone = true) ∨
      (props.customMetric.isNone = true ∧ props.predefinedMetric.isSome = true)) := by
  constructor
  · intro heq
    unfold targetTrackingScalingPolicy
    rw [if_pos (by rw [heq]; exact beq_self_eq_true _)]
  · intro r hok
    rcases hcm : props.customMetric with _ | m <;>
      rcases hpm : props.predefinedMetric with _ | pm
    · unfold targetTrackingScalingPolicy at hok
      rw [hcm, hpm] at hok
      simp at hok
    · exact Or.inr ⟨rfl, rfl⟩
    · exact Or.inl ⟨rfl, rfl⟩
    · unfold targetTrackingScalingPolicy at hok
      rw [hcm, hpm] at hok
      simp at hok

theorem targetTracking_predefined_output (uniqueId : String)
    (props : TargetTrackingScalingPolicyProps) (pm : PredefinedMetric)
    (hcm : props.customMetric = none) (hpm : props.predefinedMetric = some pm) :
    targetTrackingScalingPolicy uniqueId props = .ok {
      policyName := match props.policyName with
        | some n => if n = "" then uniqueId else n
        | none => uniqueId,
      policyType := "TargetTrackingScaling",
      scalingTargetId := props.scalingTargetId,
      targetTrackingScalingPolicyConfiguration := {
        customizedMetricSpecification := none,
        disableScaleIn := props.disableScaleIn,
        predefinedMetricSpecification := some {
          predefinedMetricType :=
            (if pm = PredefinedMetric.DYNAMODB_WRITE_CAPACITY_UTILIZATION then
              PredefinedMetric.DYANMODB_WRITE_CAPACITY_UTILIZATION else pm).value,
          resourceLabel := props.resourceLabel },
        scaleInCooldown := props.scaleInCooldown,
        scaleOutCooldown := props.scaleOutCooldown,
        targetValue := props.targetValue } } := by
  unfold targetTrackingScalingPolicy
  rw [hcm, hpm]
  by_cases hdum : pm = PredefinedMetric.DYNAMODB_WRITE_CAPACITY_UTILIZATION <;>
    simp [renderCustomMetric, hdum]

theorem predefinedMetric_value_dummy_only (pm : PredefinedMetric)
    (h : pm.value = "DynamoDBWriteCapacityUtilization-dummy") :
    pm = PredefinedMetric.DYNAMODB_WRITE_CAPACITY_UTILIZATION := by
  revert h
  cases pm <;> decide

/-- C9: constructing with the placeholder DYNAMODB_WRITE_CAPACITY_UTILIZATION
member (value "DynamoDBWriteCapacityUtilization-dummy") renders the real
"DynamoDBWriteCapacityUtilization" metric type, and no constructed
policy ever carries the placeholder string. -/
theorem targetTracking_dummy_replaced (uniqueId : String)
    (props : TargetTrackingScalingPolicyProps) :
    (∀ r, props.predefinedMetric =
        some PredefinedMetric.DYNAMODB_WRITE_CAPACITY_UTILIZATION →
      targetTrackingScalingPolicy uniqueId props = .ok r →
      r.targetTrackingScalingPolicyConfiguration.predefinedMetricSpecification =
        some { predefinedMetricType := "DynamoDBWriteCapacityUtilization",
               resourceLabel := props.resourceLabel }) ∧
    (∀ r sp, targetTrackingScalingPolicy uniqueId props = .ok r →
      r.targetTrackingScalingPolicyConfiguration.predefinedMetricSpecification = some sp →
      sp.predefinedMetricType ≠ "DynamoDBWriteCapacityUtilization-dummy") := by
  constructor
  · intro r hpm hok
    rcases hcm : props.customMetric with _ | m
    · rw [targetTracking_predefined_output uniqueId props _ hcm hpm] at hok
      simp only [Except.ok.injEq] at hok
      rw [← hok]
      simp [PredefinedMetric.value]
    · unfold targetTrackingScalingPolicy at hok
      rw [hcm, hpm] at hok
      simp at hok
  · intro r sp hok hsp
    rcases hcm : props.customMetric with _ | m <;>
      rcases hpm : props.predefinedMetric with _ | pm
    · unfold targetTrackingScalingPolicy at hok
      rw [hcm, hpm] at hok
      simp at hok
    · rw [targetTracking_predefined_output uniqueId props pm hcm hpm] at hok
      simp only [Except.ok.injEq] at hok
      rw [← hok] at hsp
      simp only [Option.some.injEq] at hsp
      have hval : sp.predefinedMetricType =
          (if pm = PredefinedMetric.DYNAMODB_WRITE_CAPACITY_UTILIZATION then
            PredefinedMetric.DYANMODB_WRITE_CAPACITY_UTILIZATION else pm).value := by
        rw [← hsp]
      rw [hval]
      by_cases hdum : pm = PredefinedMetric.DYNAMODB_WRITE_CAPACITY_UTILIZATION
      · rw [if_pos hdum]
        decide
      · rw [if_neg hdum]
        intro hvalue
        exact hdum (predefinedMetric_value_dummy_only pm hvalue)
    · -- custom metric only: no predefined specification is rendered
      unfold targetTrackingScalingPolicy at hok
      rw [hcm, hpm] at hok
      rw [if_neg (by simp)] at hok
      rcases hstat : m.metricStat with _ | stat
      · rw [if_pos (by simp [hstat])] at hok
        exact absurd hok (by simp)
      · rw [if_neg (by simp [hstat])] at hok
        rcases hrender : renderCustomMetric (some m) with e | cms <;> rw [hrender] at hok
        · exact absurd hok (by simp)
        · simp only [Except.ok.injEq] at hok
          rw [← hok] at hsp
          exact absurd hsp (by simp)
    · unfold targetTrackingScalingPolicy at hok
      rw [hcm, hpm] at hok
      simp at hok

theorem targetTracking_exactly_one_metric_witness :
    (targetTrackingScalingPolicy "gen" wPropsBoth =
      .error "ValidationError: Exactly one of customMetric or predefinedMetric must be specified.") ∧
    ((wPropsPredef.customMetric.isSome = true ∧ wPropsPredef.predefinedMetric.isNone = true) ∨
      (wPropsPredef.customMetric.isNone = true ∧ wPropsPredef.predefinedMetric.isSome = true)) :=
  ⟨(targetTracking_exactly_one_metric "gen" wPropsBoth).1 (by decide),
   (targetTracking_exactly_one_metric "gen" wPropsPredef).2 wPolicyRecord rfl⟩

theorem targetTracking_dummy_replaced_witness :
    (wPolicyRecord.targetTrackingScalingPolicyConfiguration.predefinedMetricSpecification =
      some { predefinedMetricType := "DynamoDBWriteCapacityUtilization",
             resourceLabel := wPropsPredef.resourceLabel }) ∧
    (({ predefinedMetricType := "DynamoDBWriteCapacityUtilization",
        resourceLabel := none : PredefinedMetricSpecification }).predefinedMetricType ≠
      "DynamoDBWriteCapacityUtilization-dummy") :=
  ⟨(targetTracking_dummy_replaced "gen" wPropsPredef).1 wPolicyRecord (by decide) rfl,
   (targetTracking_dummy_replaced "gen" wPropsPredef).2 wPolicyRecord
     { predefinedMetricType := "DynamoDBWriteCapacityUtilization", resourceLabel := none }
     rfl (by decide)⟩

theorem buildStorageParams_plain_keys :
    buildStorageParams
      [{ key := "skip.header.line.count", value := "1" },
       { key := "compression_type", value := "gzip" }] [] =
      .ok [("skip.header.line.count", "1"), ("compression_type", "gzip")] := rfl

/-- C10: the claim fails on the code as written. A single storage
parameter whose key is toString is pairwise-distinct, yet the
constructor throws the duplicate-key error, because the JavaScript in
operator consults the inherited Object.prototype properties of the plain
accumulator object and toString is one of them. -/
theorem externalTable_prototype_key_spuriously_rejected :
    ([{ key := "toString", value := "x" }] : List StorageParameter).Pairwise
        (fun a b => a.key ≠ b.key) ∧
    externalTableStorageDescriptor
        { externalDataLocation := "loc", connectionName := "conn", compressed := false,
          storedAsSubDirectories := none,
          storageParameters := some [{ key := "toString", value := "x" }] } =
      .error "Duplicate storage parameter key: toString" :=
  ⟨by decide, rfl⟩
